import Mathlib

/-!
Verification of the DriveAI2 lane-detection pipeline (`src/web_server.py`,
function `process_image` and its inner helper `average_lines`).

Shallow embedding conventions:
* Python ints / numpy int32 coordinates are modelled as `Int` (all values in
  the pipeline are far below 2^31, so no wrap-around can occur).
* Python floats are modelled as exact rationals `ℚ`.  Every float comparison
  the code performs (`abs(slope) < 0.5`, `slope < 0`, `slope != 0`,
  `deviation < 0`) is a sign / half-integer threshold test on a quotient of
  small integers, where IEEE double rounding cannot flip the outcome, so the
  exact-rational semantics agrees with the float semantics on these tests.
* OpenCV / numpy library calls (external collaborators, not repository code)
  are modelled by small definitions named `cv...` whose documented contracts
  (dimensions, error conditions, the `addWeighted` pixel formula) are followed
  exactly; purely graphical content with no claim depending on it (bilinear
  resampling, line rasterisation, glyph rendering) is abstracted, as noted on
  each definition.
* The chain `cvtColor → GaussianBlur → Canny → fillPoly/bitwise_and →
  HoughLinesP` only influences the pipeline through the list of detected
  segments; it is summarised by the `houghLines : Option (List Segment)`
  parameter of `processImage` (`None` models `cv2.HoughLinesP` finding no
  lines).
-/

/-- A BGR pixel, one natural number per 8-bit channel. -/
def Pixel : Type := ℕ × ℕ × ℕ

instance : DecidableEq Pixel := by
  unfold Pixel
  infer_instance

/-- A burned-in text annotation, modelling a `cv2.putText` call on the result
frame.  Glyph rasterisation is abstracted; the numeric payload and the
direction string of the two calls in `process_image` are recorded exactly
(the decimal formatting `round(_, 1)` / `round(_, 3)` of the f-string is part
of the abstracted text layout). -/
inductive Annot : Type where
  | curvature (radius : ℚ)
  | deviationMsg (dev : ℚ) (dir : String)
deriving DecidableEq

/-- A frame: a `width × height` grid of 3-channel pixels
(`pix x y` is the pixel at column `x`, row `y`), plus the list of text
annotations burned into it (see `Annot`). -/
structure Frame : Type where
  width : ℕ
  height : ℕ
  pix : ℕ → ℕ → Pixel
  texts : List Annot

/-- A detected line segment `(x1,y1)-(x2,y2)`, the element type of the
`cv2.HoughLinesP` result (each `line[0]` in the source) and also of the
`np.array([[x1, y1, x2, y2]])` value returned by `average_lines`. -/
structure Segment : Type where
  x1 : ℤ
  y1 : ℤ
  x2 : ℤ
  y2 : ℤ
deriving DecidableEq

/-- The `lane_info` dictionary built when both lane lines are present
(source lines 163-169).  The empty dictionary `{}` is modelled as `none` at
type `Option LaneInfo`. -/
structure LaneInfo : Type where
  left_fit : List ℚ
  right_fit : List ℚ
  left_curverad : ℚ
  right_curverad : ℚ
  deviation : ℚ
deriving DecidableEq

/-- Slope of a segment, `(y2 - y1) / (x2 - x1)` (source line 91), as an exact
rational.  `ℚ` division by zero yields `0`, but every use site is guarded by
the source's `x2 - x1 == 0` check. -/
def segSlope (s : Segment) : ℚ :=
  ((s.y2 - s.y1 : ℤ) : ℚ) / ((s.x2 - s.x1 : ℤ) : ℚ)

/-- One iteration of the classifier loop of `process_image` (source lines
86-101), acting on the accumulated `(left_lines, right_lines)` pair: a
vertical segment (`x2 - x1 == 0`) is skipped, a segment with
`abs(slope) < 0.5` is skipped, and the rest are appended to the left list
when `slope < 0` and to the right list otherwise. -/
def classifyStep (acc : List Segment × List Segment) (s : Segment) :
    List Segment × List Segment :=
  if s.x2 - s.x1 = 0 then acc
  else if |segSlope s| < 1/2 then acc
  else if segSlope s < 0 then (acc.1 ++ [s], acc.2)
  else (acc.1, acc.2 ++ [s])

/-- The classifier loop of `process_image` (source lines 85-101): one pass of
`classifyStep` over the detected segments, starting from two empty lists. -/
def classifySegments (lines : List Segment) : List Segment × List Segment :=
  lines.foldl classifyStep ([], [])

/-- The retention condition of the left candidate list, read off the claim:
non-vertical, slope magnitude not below 0.5, and negative slope. -/
def leftCand (s : Segment) : Bool :=
  decide (s.x2 - s.x1 ≠ 0 ∧ ¬ |segSlope s| < 1/2 ∧ segSlope s < 0)

/-- The retention condition of the right candidate list, read off the claim:
non-vertical, slope magnitude not below 0.5, and slope not negative. -/
def rightCand (s : Segment) : Bool :=
  decide (s.x2 - s.x1 ≠ 0 ∧ ¬ |segSlope s| < 1/2 ∧ ¬ segSlope s < 0)

/-- Sum of a list of integers, as a rational. -/
def ratSum (l : List ℤ) : ℚ :=
  (l.map (fun z => (Int.cast z : ℚ))).sum

/-- Sum of squares of a list of integers, as a rational. -/
def ratSumSq (l : List ℤ) : ℚ :=
  (l.map (fun z => (Int.cast z : ℚ) ^ 2)).sum

/-- Sum of pairwise products `Σ xᵢ·yᵢ`, as a rational. -/
def ratSumMul (xs ys : List ℤ) : ℚ :=
  ((xs.zip ys).map (fun p => (Int.cast p.1 : ℚ) * (Int.cast p.2 : ℚ))).sum

/-- Model of `np.polyfit(x_coords, y_coords, 1)` (source line 118): the
degree-1 ordinary least-squares fit of `y` against `x`, computed by the
normal equations
  `m = (n·Σxy − Σx·Σy) / (n·Σx² − (Σx)²)`, `b = (Σy − m·Σx) / n`.
`np.polyfit` computes exactly this least-squares solution (in floating
point); the closed form is valid whenever the design matrix has full rank,
i.e. `n·Σx² − (Σx)² ≠ 0`, which holds for every candidate set the classifier
produces because each retained segment contributes two distinct x-coordinates
(see `polyfit1_denom_pos`).  `polyfit1_is_least_squares` proves the pair
really is the least-squares minimiser. -/
def polyfit1 (xs ys : List ℤ) : ℚ × ℚ :=
  let n : ℚ := xs.length
  let sx := ratSum xs
  let sy := ratSum ys
  let sxx := ratSumSq xs
  let sxy := ratSumMul xs ys
  let m := (n * sxy - sx * sy) / (n * sxx - sx ^ 2)
  let b := (sy - m * sx) / n
  (m, b)

/-- Python's `int()` conversion on a float: truncation toward zero. -/
def intTrunc (q : ℚ) : ℤ :=
  if 0 ≤ q then ⌊q⌋ else ⌈q⌉

/-- The `x_coords` list built by `average_lines` (source lines 108-113): all
endpoint x-coordinates of the segments, two per segment, in order. -/
def xCoordsOf (lines : List Segment) : List ℤ :=
  lines.foldl (fun a s => a ++ [s.x1, s.x2]) []

/-- The `y_coords` list built by `average_lines` (source lines 109-114): all
endpoint y-coordinates of the segments, two per segment, in order. -/
def yCoordsOf (lines : List Segment) : List ℤ :=
  lines.foldl (fun a s => a ++ [s.y1, s.y2]) []

/-- The inner function `average_lines` of `process_image` (source lines
104-130).  `height` is the enclosing frame height captured by the closure
(always `480` in the pipeline).  Returns `None` for an empty list; otherwise
gathers all endpoint coordinates, least-squares fits `y` against `x`, and
extrapolates to `y1 = height` and `y2 = int(height * 0.6)` with
`x = int((y - intercept) / slope)`, substituting `x = 0` when the fitted
slope is zero.  `int(height * 0.6)` is modelled as `6 * height / 10`
(floor division); at the pipeline's fixed `height = 480` the product
`480 * 0.6` is exactly `288.0` in IEEE doubles, so the model is exact there. -/
def average_lines (height : ℕ) (lines : List Segment) : Option Segment :=
  if lines.length = 0 then none
  else
    let x_coords := xCoordsOf lines
    let y_coords := yCoordsOf lines
    if x_coords.length > 0 ∧ y_coords.length > 0 then
      let z := polyfit1 x_coords y_coords
      let slope := z.1
      let intercept := z.2
      let y1 : ℤ := (height : ℤ)
      let y2 : ℤ := 6 * (height : ℤ) / 10
      let x1 : ℤ := if slope ≠ 0 then intTrunc (((y1 : ℚ) - intercept) / slope) else 0
      let x2 : ℤ := if slope ≠ 0 then intTrunc (((y2 : ℚ) - intercept) / slope) else 0
      some ⟨x1, y1, x2, y2⟩
    else none

/-- Model of a successful `cv2.resize(f, (w, h))`: the result has exactly the
requested width `w` and height `h` (cv2's documented contract); pixel content
is sampled from the source (cv2's bilinear interpolation is abstracted to
nearest sampling — no claim depends on the resampled values, only on the
dimensions and on the resized frame as a whole). -/
def resizeFrame (f : Frame) (w h : ℕ) : Frame :=
  { width := w
    height := h
    pix := fun x y => f.pix (x * f.width / w) (y * f.height / h)
    texts := f.texts }

/-- `cv2.resize(image, (w, h))` including its failure behaviour: it raises
`cv2.error` when the source is `None` (a null buffer, as produced by a failed
`cv2.imdecode`) or has zero width or height — the `Except.error` branch —
and otherwise produces `resizeFrame`. -/
def cvResize (image : Option Frame) (w h : ℕ) : Except String Frame :=
  match image with
  | none => Except.error ("resize: src is not a numpy array")
  | some f =>
      if f.width = 0 ∨ f.height = 0 then
        Except.error ("resize: src is empty")
      else
        Except.ok (resizeFrame f w h)

/-- Model of `np.zeros((height, width, 3), dtype=np.uint8)` (source line 79):
an all-black frame with no annotations. -/
def zeroFrame (w h : ℕ) : Frame :=
  { width := w, height := h, pix := fun _ _ => (0, 0, 0), texts := [] }

/-- Decidable membership test of pixel `(x, y)` in the thickness-5
rasterisation of segment `(x1,y1)-(x2,y2)`: inside the bounding box padded by
the half-thickness and within cross-product distance of the supporting line.
An abstraction of cv2's exact Bresenham rasterisation; no claim depends on
which pixels a drawn line covers. -/
def onThickSeg (x1 y1 x2 y2 : ℤ) (x y : ℕ) : Bool :=
  decide (min x1 x2 - 2 ≤ (x : ℤ) ∧ (x : ℤ) ≤ max x1 x2 + 2 ∧
    min y1 y2 - 2 ≤ (y : ℤ) ∧ (y : ℤ) ≤ max y1 y2 + 2 ∧
    2 * |(x2 - x1) * ((y : ℤ) - y1) - (y2 - y1) * ((x : ℤ) - x1)| ≤
      5 * (|x2 - x1| + |y2 - y1|))

/-- Model of `cv2.line(img, (x1, y1), (x2, y2), color, 5)` (source lines 139
and 143): paints `color` on the pixels of the segment's thickness-5
rasterisation (see `onThickSeg`), leaving dimensions and annotations
unchanged. -/
def cvLine (img : Frame) (s : Segment) (color : Pixel) : Frame :=
  { img with pix := fun x y => if onThickSeg s.x1 s.y1 s.x2 s.y2 x y then color else img.pix x y }

/-- Saturating rounded blend of one 8-bit channel value under
`cv2.addWeighted(·, 0.8, ·, 1, 0)`:
`saturate_cast<uchar>(round(0.8·a + b)) = min 255 ((8a + 10b + 5) / 10)`.
For 8-bit inputs `0.8·a + b` is never exactly a half-integer (it is a
multiple of `1/5` away by at least `1/10`), and the double-rounding error of
`a*0.8 + b` is far below `1/10`, so this integer formula agrees exactly with
the IEEE computation followed by `cvRound`. -/
def blendChan (a b : ℕ) : ℕ :=
  min 255 ((8 * a + 10 * b + 5) / 10)

/-- `blendChan` applied to each BGR channel. -/
def blendPix (a b : Pixel) : Pixel :=
  (blendChan a.1 b.1, blendChan a.2.1 b.2.1, blendChan a.2.2 b.2.2)

/-- Model of `cv2.addWeighted(img1, 0.8, img2, 1, 0)` (source line 146):
pixel-wise `blendPix`; annotations of both layers are kept. -/
def cvAddWeighted (img1 img2 : Frame) : Frame :=
  { width := img1.width
    height := img1.height
    pix := fun x y => blendPix (img1.pix x y) (img2.pix x y)
    texts := img1.texts ++ img2.texts }

/-- Model of `cv2.putText(img, text, ...)` (source lines 172 and 174):
records the annotation (see `Annot`); the pixel grid change from glyph
rendering is abstracted. -/
def cvPutText (img : Frame) (a : Annot) : Frame :=
  { img with texts := img.texts ++ [a] }

/-- The `if lines is not None:` guard around the classifier loop (source
line 85): when `cv2.HoughLinesP` returns `None` both candidate lists stay
empty, otherwise the loop `classifySegments` runs over the detected
segments. -/
def sidesOf (houghLines : Option (List Segment)) : List Segment × List Segment :=
  match houghLines with
  | none => ([], [])
  | some ls => classifySegments ls

/-- The `line_image` layer after the two conditional `cv2.line` calls
(source lines 79 and 137-143): a blank frame on which each present lane line
is painted — the left one red `(0, 0, 255)`, the right one green
`(0, 255, 0)` (BGR). -/
def drawnLayer (w h : ℕ) (left_line right_line : Option Segment) : Frame :=
  let base := zeroFrame w h
  let base := match left_line with
    | some s => cvLine base s (0, 0, 255)
    | none => base
  match right_line with
  | some s => cvLine base s (0, 255, 0)
  | none => base

/-- The part of the `try:` body of `process_image` after the resize (source
lines 56-176), operating on the resized frame `img0` and parameterised by the
`cv2.HoughLinesP` result `houghLines` (see `sidesOf`).  It classifies the
detected segments, averages each side, draws the present lane lines on a
blank layer, alpha-blends that layer onto `img0`, and when both lines are
present builds `lane_info` and burns in the curvature and deviation texts.
Every operation in this part is total on the model's types (the divisions
are guarded exactly as in the source), so it is a plain function. -/
def processBody (img0 : Frame) (houghLines : Option (List Segment)) :
    Frame × Option LaneInfo :=
  let height := img0.height
  let width := img0.width
  let left_line := average_lines height (sidesOf houghLines).1
  let right_line := average_lines height (sidesOf houghLines).2
  let result := cvAddWeighted img0 (drawnLayer width height left_line right_line)
  match left_line, right_line with
  | some l, some r =>
      let left_curverad : ℚ := 1000
      let right_curverad : ℚ := 1000
      let left_x : ℤ := l.x1
      let right_x : ℤ := r.x1
      let lane_center : ℚ := ((left_x : ℚ) + (right_x : ℚ)) / 2
      let vehicle_center : ℚ := (width : ℚ) / 2
      let deviation : ℚ := (vehicle_center - lane_center) * (37/10) / (width : ℚ)
      let lane_info : LaneInfo :=
        { left_fit := [0, 0, 0]
          right_fit := [0, 0, 0]
          left_curverad := left_curverad
          right_curverad := right_curverad
          deviation := deviation }
      let result := cvPutText result (Annot.curvature left_curverad)
      let direction := if deviation < 0 then ("left") else ("right")
      let result := cvPutText result (Annot.deviationMsg deviation direction)
      (result, some lane_info)
  | _, _ => (result, none)

/-- The `try:` body of `process_image` (source lines 52-176): the resize to
640×480 is the only failure point (see `cvResize`); the rest of the body is
the total function `processBody` applied to the resized frame. -/
def processImageTry (image : Option Frame) (houghLines : Option (List Segment)) :
    Except String (Frame × Option LaneInfo) :=
  match cvResize image 640 480 with
  | Except.error e => Except.error e
  | Except.ok img0 => Except.ok (processBody img0 houghLines)

/-- `process_image` (source lines 49-180): run the `try:` body; any internal
exception is caught by the `except Exception` handler, which returns the
original (whatever was passed in, possibly `None`) image together with the
empty dictionary, modelled as `none : Option LaneInfo`. -/
def processImage (image : Option Frame) (houghLines : Option (List Segment)) :
    Option Frame × Option LaneInfo :=
  match processImageTry image houghLines with
  | Except.ok (res, info) => (some res, info)
  | Except.error _ => (image, none)

/-- A frame input is malformed exactly when it is a null buffer (`None`) or
has zero width or zero height — the spec's `InvalidInput` conditions. -/
def isMalformed (image : Option Frame) : Bool :=
  match image with
  | none => true
  | some f => f.width = 0 ∨ f.height = 0

/-- The direction string of the last deviation message burned into a frame,
if any: the rendered direction label of the overlay compositor. -/
def renderedDirection (f : Frame) : Option String :=
  (f.texts.filterMap fun a =>
    match a with
    | Annot.deviationMsg _ d => some d
    | _ => none).getLast?

/-! ### Concrete test inputs -/

/-- A uniform 640×480 frame, every pixel `(v, v, v)`, no annotations. -/
def testFrame (v : ℕ) : Frame :=
  ⟨640, 480, fun _ _ => (v, v, v), []⟩

/-- A uniform 320×240 frame. -/
def smallFrame : Frame :=
  ⟨320, 240, fun _ _ => (100, 100, 100), []⟩

/-- A left-lane segment with slope −1 whose averaged line hits the frame
bottom at x = 100. -/
def segL : Segment := ⟨100, 480, 200, 380⟩

/-- A right-lane segment with slope 1 whose averaged line hits the frame
bottom at x = 540 (so that `(100 + 540) / 2 = 320` is exactly the vehicle
center of a 640-wide frame). -/
def segR : Segment := ⟨540, 480, 640, 580⟩

/-- A right-lane segment with slope 1 whose averaged line hits the frame
bottom at x = 560 (lane center 330, right of the vehicle center). -/
def segR2 : Segment := ⟨560, 480, 660, 580⟩

/-! ### Helper lemmas about the pipeline skeleton -/

theorem cvResize_some_eq (f : Frame) (w h : ℕ) (hf : isMalformed (some f) = false) :
    cvResize (some f) w h = Except.ok (resizeFrame f w h) := by
  have hne : ¬ (f.width = 0 ∨ f.height = 0) := by
    simpa [isMalformed] using hf
  simp [cvResize, hne]

theorem processImageTry_wf (f : Frame) (hl : Option (List Segment))
    (hf : isMalformed (some f) = false) :
    processImageTry (some f) hl =
      Except.ok (processBody (resizeFrame f 640 480) hl) := by
  simp [processImageTry, cvResize_some_eq f 640 480 hf]

theorem processImageTry_error_iff (image : Option Frame) (hl : Option (List Segment)) :
    (∃ e, processImageTry image hl = Except.error e) ↔ isMalformed image = true := by
  match image with
  | none => simp [processImageTry, cvResize, isMalformed]
  | some f =>
      by_cases hm : isMalformed (some f) = true
      · have hne : f.width = 0 ∨ f.height = 0 := by
          simpa [isMalformed] using hm
        simp [processImageTry, cvResize, hne, hm]
      · have hm' : isMalformed (some f) = false := by
          simpa using hm
        simp [processImageTry_wf f hl hm', hm']

theorem processBody_fst_dims (img0 : Frame) (hl : Option (List Segment)) :
    (processBody img0 hl).1.width = img0.width ∧
    (processBody img0 hl).1.height = img0.height := by
  unfold processBody
  cases hL : average_lines img0.height (sidesOf hl).1 with
  | none => simp [hL, cvAddWeighted]
  | some l =>
      cases hR : average_lines img0.height (sidesOf hl).2 with
      | none => simp [hL, hR, cvAddWeighted]
      | some r => simp [hL, hR, cvAddWeighted, cvPutText]

theorem resizeFrame_resizeFrame (f : Frame) :
    resizeFrame (resizeFrame f 640 480) 640 480 = resizeFrame f 640 480 := by
  have hx : ∀ x : ℕ, x * 640 / 640 = x := fun x => Nat.mul_div_cancel x (by norm_num)
  have hy : ∀ y : ℕ, y * 480 / 480 = y := fun y => Nat.mul_div_cancel y (by norm_num)
  unfold resizeFrame
  simp [hx, hy]

/-- A frame with zero width: a malformed input on which `cv2.resize`
raises. -/
def zeroWidthFrame : Frame :=
  ⟨0, 480, fun _ _ => (0, 0, 0), []⟩

/-! ### The claims -/

/-- C9: `process_image` never raises for any input: every internal exception
(including malformed or null frames, which make the initial resize throw) is
caught by the catch-all `except Exception` handler, which returns the
original input object unchanged together with an empty metrics dictionary
(`none`), instead of propagating an error to the caller.  (`processImage` is
a total function of its input — the model has no escaping exception channel —
and this theorem shows the handler's value on every internally erroring
run.) -/
theorem C9_catch_all_returns_original (image : Option Frame)
    (hl : Option (List Segment)) (e : String)
    (h : processImageTry image hl = Except.error e) :
    processImage image hl = (image, none) := by
  simp [processImage, h]

theorem C9_catch_all_returns_original_witness :
    processImage none none = (none, none) :=
  C9_catch_all_returns_original none none ("resize: src is not a numpy array") rfl

/-- C2, counterexample: the claim says a malformed input makes the pipeline
fail with an error that is "fatal to the call, propagated immediately".  On
the concrete malformed input `none` (a null pixel buffer) the resize does
raise inside the `try:` body, but `process_image` catches it and returns
normally — nothing is propagated to the caller. -/
theorem C2_cex_malformed_input_returns_normally :
    isMalformed none = true ∧
    processImageTry none none = Except.error ("resize: src is not a numpy array") ∧
    processImage none none = (none, none) :=
  ⟨rfl, rfl, rfl⟩

/-- C2, amended: the `try:` body of `process_image` fails if and only if the
input frame is malformed (null buffer, zero width or zero height), but the
failure is not propagated: the catch-all handler intercepts it and the call
returns the original input together with empty metrics, producing no partial
output. -/
theorem C2_invalid_input_caught (image : Option Frame) (hl : Option (List Segment)) :
    ((∃ e, processImageTry image hl = Except.error e) ↔ isMalformed image = true) ∧
    (isMalformed image = true → processImage image hl = (image, none)) := by
  refine ⟨processImageTry_error_iff image hl, fun hm => ?_⟩
  obtain ⟨e, he⟩ := (processImageTry_error_iff image hl).mpr hm
  simp [processImage, he]

theorem C2_invalid_input_caught_witness :
    ((∃ e, processImageTry (some zeroWidthFrame) none = Except.error e) ↔
      isMalformed (some zeroWidthFrame) = true) ∧
    (isMalformed (some zeroWidthFrame) = true →
      processImage (some zeroWidthFrame) none = (some zeroWidthFrame, none)) :=
  C2_invalid_input_caught (some zeroWidthFrame) none

/-- C1, counterexample: the claim says that for every accepted frame the
annotated output has the same width and height as the input.  The concrete
well-formed 320×240 input `smallFrame` is accepted, yet the output frame is
640×480. -/
theorem C1_cex_output_dims_differ_from_input :
    isMalformed (some smallFrame) = false ∧
    (processImage (some smallFrame) none).1.map Frame.width = some 640 ∧
    (processImage (some smallFrame) none).1.map Frame.height = some 480 ∧
    smallFrame.width = 320 ∧ smallFrame.height = 240 :=
  ⟨rfl, rfl, rfl, rfl, rfl⟩

/-- C1, amended: for every frame accepted by the pipeline the annotated
output frame has width 640 and height 480 (the fixed resize target), so its
dimensions equal the input frame's dimensions exactly when the input is
already 640×480. -/
theorem C1_output_dims_fixed (f : Frame) (hl : Option (List Segment))
    (hf : isMalformed (some f) = false) :
    ∃ res info, processImage (some f) hl = (some res, info) ∧
      res.width = 640 ∧ res.height = 480 ∧
      ((res.width = f.width ∧ res.height = f.height) ↔
        (f.width = 640 ∧ f.height = 480)) := by
  have h := processImageTry_wf f hl hf
  have hd := processBody_fst_dims (resizeFrame f 640 480) hl
  have hw : (processBody (resizeFrame f 640 480) hl).1.width = 640 := by
    simpa [resizeFrame] using hd.1
  have hh : (processBody (resizeFrame f 640 480) hl).1.height = 480 := by
    simpa [resizeFrame] using hd.2
  refine ⟨(processBody (resizeFrame f 640 480) hl).1,
    (processBody (resizeFrame f 640 480) hl).2, by simp [processImage, h], hw, hh, ?_⟩
  rw [hw, hh]
  constructor
  · rintro ⟨h1, h2⟩
    exact ⟨h1.symm, h2.symm⟩
  · rintro ⟨h1, h2⟩
    exact ⟨h1.symm, h2.symm⟩

theorem C1_output_dims_fixed_witness :
    ∃ res info, processImage (some smallFrame) none = (some res, info) ∧
      res.width = 640 ∧ res.height = 480 ∧
      ((res.width = smallFrame.width ∧ res.height = smallFrame.height) ↔
        (smallFrame.width = 640 ∧ smallFrame.height = 480)) :=
  C1_output_dims_fixed smallFrame none rfl

/-- C10: every frame is resized to exactly 640×480 before any processing:
whenever the `try:` body succeeds the annotated output frame is 640×480
regardless of the input frame's dimensions, and the whole run is equal to a
run on the already-resized frame — so every later stage (ROI, detection,
averaging, metrics) operates on the 640×480 geometry. -/
theorem C10_resized_to_640x480 (f : Frame) (hl : Option (List Segment))
    (res : Frame) (info : Option LaneInfo)
    (h : processImageTry (some f) hl = Except.ok (res, info)) :
    res.width = 640 ∧ res.height = 480 ∧
    processImageTry (some f) hl = processImageTry (some (resizeFrame f 640 480)) hl := by
  by_cases hm : isMalformed (some f) = true
  · obtain ⟨e, he⟩ := (processImageTry_error_iff (some f) hl).mpr hm
    rw [h] at he
    exact absurd he (by simp)
  · have hf : isMalformed (some f) = false := by simpa using hm
    have hwf := processImageTry_wf f hl hf
    rw [hwf] at h
    have hpair : processBody (resizeFrame f 640 480) hl = (res, info) := by
      injection h
    have hd := processBody_fst_dims (resizeFrame f 640 480) hl
    rw [hpair] at hd
    refine ⟨by simpa [resizeFrame] using hd.1, by simpa [resizeFrame] using hd.2, ?_⟩
    have hf2 : isMalformed (some (resizeFrame f 640 480)) = false := by
      simp [isMalformed, resizeFrame]
    rw [hwf, processImageTry_wf (resizeFrame f 640 480) hl hf2,
      resizeFrame_resizeFrame]

theorem C10_resized_to_640x480_witness :
    (processBody (resizeFrame (testFrame 100) 640 480) none).1.width = 640 ∧
    (processBody (resizeFrame (testFrame 100) 640 480) none).1.height = 480 ∧
    processImageTry (some (testFrame 100)) none =
      processImageTry (some (resizeFrame (testFrame 100) 640 480)) none :=
  C10_resized_to_640x480 (testFrame 100) none
    (processBody (resizeFrame (testFrame 100) 640 480) none).1
    (processBody (resizeFrame (testFrame 100) 640 480) none).2 rfl

/-- C8: the averaging step is deterministic and (in the spec's sense)
idempotent: `average_lines` is a pure function of the segment set — it reads
no global state (the module globals `last_warped_image` and `last_lane_info`
are never consulted) — so running the fit twice on the same set yields
identical endpoints, and equal inputs always yield equal outputs. -/
theorem C8_average_lines_deterministic (H : ℕ) (ls ls' : List Segment)
    (h : ls = ls') :
    average_lines H ls = average_lines H ls' ∧
    average_lines H ls = average_lines H ls := by
  subst h
  exact ⟨rfl, rfl⟩

theorem C8_average_lines_deterministic_witness :
    average_lines 480 [segL] = average_lines 480 [segL] ∧
    average_lines 480 [segL] = average_lines 480 [segL] :=
  C8_average_lines_deterministic 480 [segL] [segL] rfl

theorem classify_foldl (ls : List Segment) :
    ∀ acc : List Segment × List Segment,
      ls.foldl classifyStep acc =
        (acc.1 ++ ls.filter leftCand, acc.2 ++ ls.filter rightCand) := by
  induction ls with
  | nil => intro acc; simp
  | cons s t ih =>
      intro acc
      rw [List.foldl_cons, ih (classifyStep acc s), List.filter_cons, List.filter_cons]
      by_cases h1 : s.x2 - s.x1 = 0
      · have hstep : classifyStep acc s = acc := by
          unfold classifyStep
          rw [if_pos h1]
        have hfL : leftCand s = false := by
          unfold leftCand
          rw [decide_eq_false_iff_not]
          rintro ⟨hns, -, -⟩
          exact hns h1
        have hfR : rightCand s = false := by
          unfold rightCand
          rw [decide_eq_false_iff_not]
          rintro ⟨hns, -, -⟩
          exact hns h1
        rw [hstep, hfL, hfR]
        simp
      · by_cases h2 : |segSlope s| < 1/2
        · have hstep : classifyStep acc s = acc := by
            unfold classifyStep
            rw [if_neg h1, if_pos h2]
          have hfL : leftCand s = false := by
            unfold leftCand
            rw [decide_eq_false_iff_not]
            rintro ⟨-, hns, -⟩
            exact hns h2
          have hfR : rightCand s = false := by
            unfold rightCand
            rw [decide_eq_false_iff_not]
            rintro ⟨-, hns, -⟩
            exact hns h2
          rw [hstep, hfL, hfR]
          simp
        · by_cases h3 : segSlope s < 0
          · have hstep : classifyStep acc s = (acc.1 ++ [s], acc.2) := by
              unfold classifyStep
              rw [if_neg h1, if_neg h2, if_pos h3]
            have htL : leftCand s = true := by
              unfold leftCand
              exact decide_eq_true ⟨h1, h2, h3⟩
            have hfR : rightCand s = false := by
              unfold rightCand
              rw [decide_eq_false_iff_not]
              rintro ⟨-, -, hns⟩
              exact hns h3
            rw [hstep, htL, hfR]
            simp
          · have hstep : classifyStep acc s = (acc.1, acc.2 ++ [s]) := by
              unfold classifyStep
              rw [if_neg h1, if_neg h2, if_neg h3]
            have hfL : leftCand s = false := by
              unfold leftCand
              rw [decide_eq_false_iff_not]
              rintro ⟨-, -, hns⟩
              exact h3 hns
            have htR : rightCand s = true := by
              unfold rightCand
              exact decide_eq_true ⟨h1, h2, h3⟩
            rw [hstep, hfL, htR]
            simp

/-- C4: the classifier discards a detected segment when `x2 == x1` (vertical)
or when `|slope| < 0.5` (the 0.5 boundary itself is kept); otherwise it
appends it to the left candidate list when the slope is negative and to the
right candidate list when the slope is positive — the two lists are exactly
the order-preserving filters of the input by those conditions — so every
retained segment is non-vertical and has slope magnitude ≥ 0.5 with a sign
consistent with its side. -/
theorem C4_classifier_filters (ls : List Segment) :
    classifySegments ls = (ls.filter leftCand, ls.filter rightCand) ∧
    (∀ s ∈ (classifySegments ls).1,
      s.x2 - s.x1 ≠ 0 ∧ 1/2 ≤ |segSlope s| ∧ segSlope s < 0) ∧
    (∀ s ∈ (classifySegments ls).2,
      s.x2 - s.x1 ≠ 0 ∧ 1/2 ≤ |segSlope s| ∧ 0 < segSlope s) := by
  have hchar : classifySegments ls = (ls.filter leftCand, ls.filter rightCand) := by
    rw [classifySegments, classify_foldl ls ([], [])]
    simp
  refine ⟨hchar, ?_, ?_⟩
  · intro s hs
    rw [hchar] at hs
    have hp := List.of_mem_filter hs
    have hp' := of_decide_eq_true hp
    exact ⟨hp'.1, not_lt.mp hp'.2.1, hp'.2.2⟩
  · intro s hs
    rw [hchar] at hs
    have hp := List.of_mem_filter hs
    have hp' := of_decide_eq_true hp
    have hge : 1/2 ≤ |segSlope s| := not_lt.mp hp'.2.1
    have hnonneg : 0 ≤ segSlope s := not_lt.mp hp'.2.2
    have habs : |segSlope s| = segSlope s := abs_of_nonneg hnonneg
    refine ⟨hp'.1, hge, ?_⟩
    have : (1 : ℚ)/2 ≤ segSlope s := habs ▸ hge
    linarith

theorem C4_classifier_filters_witness :
    classifySegments [segL, segR] =
      ([segL, segR].filter leftCand, [segL, segR].filter rightCand) ∧
    (segL.x2 - segL.x1 ≠ 0 ∧ 1/2 ≤ |segSlope segL| ∧ segSlope segL < 0) ∧
    (segR.x2 - segR.x1 ≠ 0 ∧ 1/2 ≤ |segSlope segR| ∧ 0 < segSlope segR) :=
  ⟨(C4_classifier_filters [segL, segR]).1,
    (C4_classifier_filters [segL, segR]).2.1 segL
      (by norm_num [classifySegments, classifyStep, segSlope, segL, segR, List.foldl]),
    (C4_classifier_filters [segL, segR]).2.2 segR
      (by norm_num [classifySegments, classifyStep, segSlope, segL, segR, List.foldl])⟩

/-- C7: `lane_info` is produced if and only if both the left and the right
averaged lane line are present; when either side is absent the metrics value
is the empty dictionary (`none` — no partial fields exist), and when both are
present the two curvature radii are the documented placeholder constant
`1000.0`, not a computed curvature. -/
theorem C7_metrics_iff_both_lines (f : Frame) (hl : Option (List Segment))
    (hf : isMalformed (some f) = false) :
    ((processImage (some f) hl).2.isSome = true ↔
      ((average_lines 480 (sidesOf hl).1).isSome = true ∧
        (average_lines 480 (sidesOf hl).2).isSome = true)) ∧
    (∀ li, (processImage (some f) hl).2 = some li →
      li.left_curverad = 1000 ∧ li.right_curverad = 1000) := by
  have h := processImageTry_wf f hl hf
  have hp : processImage (some f) hl =
      (some (processBody (resizeFrame f 640 480) hl).1,
        (processBody (resizeFrame f 640 480) hl).2) := by
    simp [processImage, h]
  rw [hp]
  unfold processBody
  have hht : (resizeFrame f 640 480).height = 480 := rfl
  rw [hht]
  cases hL : average_lines 480 (sidesOf hl).1 with
  | none => simp [hL]
  | some l =>
      cases hR : average_lines 480 (sidesOf hl).2 with
      | none => simp [hL, hR]
      | some r =>
          simp only [hL, hR]
          refine ⟨by simp, ?_⟩
          intro li hli
          simp only [Option.some.injEq] at hli
          rw [← hli]
          exact ⟨rfl, rfl⟩

theorem C7_metrics_iff_both_lines_witness :
    (processImage (some (testFrame 100)) none).2.isSome = true ↔
      ((average_lines 480 (sidesOf none).1).isSome = true ∧
        (average_lines 480 (sidesOf none).2).isSome = true) :=
  (C7_metrics_iff_both_lines (testFrame 100) none rfl).1

/-- C3, counterexample: the claim says a well-formed frame with zero detected
segments yields an output frame equal to the resized input.  On the concrete
uniform-100 640×480 frame with no detected segments the pipeline returns
normally with absent metrics, but the output pixel at (0,0) is
`(80, 80, 80)` — the `cv2.addWeighted(image, 0.8, line_image, 1, 0)` blend
scales every channel by 0.8 — while the resized input's pixel there is
`(100, 100, 100)`. -/
theorem C3_cex_output_is_scaled_not_equal :
    (processImage (some (testFrame 100)) none).1.map (fun fr => fr.pix 0 0) =
      some ((80 : ℕ), (80 : ℕ), (80 : ℕ)) ∧
    (resizeFrame (testFrame 100) 640 480).pix 0 0 = ((100 : ℕ), 100, 100) ∧
    (processImage (some (testFrame 100)) none).2 = none :=
  ⟨rfl, rfl, rfl⟩

/-- C3, amended: for every well-formed frame with zero detected segments the
pipeline does not raise: it returns the resized input alpha-blended at weight
0.8 with the untouched all-black overlay layer (each channel becomes
`round(0.8·v)`, so the frame is unchanged only where it is black — in
particular an all-black frame passes through unchanged), with no lane
overlays drawn and the metrics value absent. -/
theorem C3_no_segments_scaled_output (f : Frame) (hl : Option (List Segment))
    (hf : isMalformed (some f) = false)
    (hempty : hl = none ∨ hl = some []) :
    processImage (some f) hl =
      (some (cvAddWeighted (resizeFrame f 640 480) (zeroFrame 640 480)), none) ∧
    (∀ x y, (cvAddWeighted (resizeFrame f 640 480) (zeroFrame 640 480)).pix x y =
      blendPix ((resizeFrame f 640 480).pix x y) (0, 0, 0)) ∧
    (∀ x y, (resizeFrame f 640 480).pix x y = (0, 0, 0) →
      (cvAddWeighted (resizeFrame f 640 480) (zeroFrame 640 480)).pix x y = (0, 0, 0)) := by
  have h := processImageTry_wf f hl hf
  have hsides : sidesOf hl = ([], []) := by
    rcases hempty with rfl | rfl
    · rfl
    · rfl
  refine ⟨?_, fun x y => rfl, ?_⟩
  · have hb : processBody (resizeFrame f 640 480) hl =
        (cvAddWeighted (resizeFrame f 640 480) (zeroFrame 640 480), none) := by
      unfold processBody
      rw [hsides]
      rfl
    simp [processImage, h, hb]
  · intro x y hxy
    simp [cvAddWeighted, zeroFrame, hxy, blendPix, blendChan]

theorem C3_no_segments_scaled_output_witness :
    processImage (some (zeroFrame 640 480)) none =
      (some (cvAddWeighted (resizeFrame (zeroFrame 640 480) 640 480) (zeroFrame 640 480)),
        none) ∧
    (∀ x y,
      (cvAddWeighted (resizeFrame (zeroFrame 640 480) 640 480) (zeroFrame 640 480)).pix x y =
        blendPix ((resizeFrame (zeroFrame 640 480) 640 480).pix x y) (0, 0, 0)) ∧
    (∀ x y, (resizeFrame (zeroFrame 640 480) 640 480).pix x y = (0, 0, 0) →
      (cvAddWeighted (resizeFrame (zeroFrame 640 480) 640 480) (zeroFrame 640 480)).pix x y =
        (0, 0, 0)) :=
  C3_no_segments_scaled_output (zeroFrame 640 480) none rfl (Or.inl rfl)

/-- The lateral deviation computed by `process_image` (source line 161):
`(vehicle_center − lane_center) * 3.7 / width` with
`lane_center = (left_x + right_x) / 2` taken from the two lines'
bottom-anchored x-coordinates and `vehicle_center = width / 2`. -/
def deviationOf (w : ℕ) (l r : Segment) : ℚ :=
  ((w : ℚ) / 2 - ((l.x1 : ℚ) + (r.x1 : ℚ)) / 2) * (37/10) / (w : ℚ)

theorem renderedDirection_putText (X : Frame) (q d : ℚ) (s : String) :
    renderedDirection
      (cvPutText (cvPutText X (Annot.curvature q)) (Annot.deviationMsg d s)) =
      some s := by
  unfold renderedDirection cvPutText
  simp [List.filterMap_append]

/-- C5, counterexample: the claim says the rendered direction label is
"right" exactly when the deviation is strictly positive.  On the concrete
input whose two averaged lines are bottom-anchored at x = 100 and x = 540
(lane center 320 = vehicle center) the deviation is exactly 0 — not positive
— yet the rendered label is "right" (`direction = "left" if deviation < 0
else "right"` sends 0 to the `else` branch). -/
theorem C5_cex_zero_deviation_labeled_right :
    (processImage (some (testFrame 100)) (some [segL, segR])).2 =
      some { left_fit := [0, 0, 0], right_fit := [0, 0, 0], left_curverad := 1000,
             right_curverad := 1000, deviation := 0 } ∧
    ((processImage (some (testFrame 100)) (some [segL, segR])).1.map renderedDirection) =
      some (some ("right")) ∧
    ¬ ((0 : ℚ) > 0) := by
  refine ⟨?_, ?_, by norm_num⟩
  · norm_num [processImage, processImageTry, cvResize, resizeFrame, processBody, sidesOf,
      classifySegments, classifyStep, segSlope, average_lines, xCoordsOf, yCoordsOf, polyfit1, ratSum, ratSumSq,
      ratSumMul, intTrunc, List.foldl, segL, segR, testFrame, cvPutText, cvAddWeighted,
      drawnLayer, zeroFrame, cvLine, isMalformed]
  · norm_num [processImage, processImageTry, cvResize, resizeFrame, processBody, sidesOf,
      classifySegments, classifyStep, segSlope, average_lines, xCoordsOf, yCoordsOf, polyfit1, ratSum, ratSumSq,
      ratSumMul, intTrunc, List.foldl, segL, segR, testFrame, cvPutText, cvAddWeighted,
      drawnLayer, zeroFrame, cvLine, isMalformed, renderedDirection, List.filterMap]

/-- C5, amended: whenever both lane lines are present, the deviation equals
`(vehicle_center − lane_center) × 3.7 / frame_width` (`deviationOf`, with
`lane_center` the midpoint of the two lines' bottom x-coordinates and
`vehicle_center = frame_width / 2 = 320`), and the rendered direction label
is "left" exactly when the deviation is negative and "right" exactly when it
is non-negative (a deviation of exactly 0 is labeled "right"). -/
theorem C5_deviation_and_label (f : Frame) (hl : Option (List Segment)) (l r : Segment)
    (hf : isMalformed (some f) = false)
    (hL : average_lines 480 (sidesOf hl).1 = some l)
    (hR : average_lines 480 (sidesOf hl).2 = some r) :
    ∃ res, processImage (some f) hl = (some res, some
        { left_fit := [0, 0, 0], right_fit := [0, 0, 0], left_curverad := 1000,
          right_curverad := 1000, deviation := deviationOf 640 l r }) ∧
      (renderedDirection res = some ("right") ↔ 0 ≤ deviationOf 640 l r) ∧
      (renderedDirection res = some ("left") ↔ deviationOf 640 l r < 0) := by
  have h := processImageTry_wf f hl hf
  have hb : processBody (resizeFrame f 640 480) hl =
      (cvPutText (cvPutText (cvAddWeighted (resizeFrame f 640 480)
          (drawnLayer 640 480 (some l) (some r))) (Annot.curvature 1000))
        (Annot.deviationMsg (deviationOf 640 l r)
          (if deviationOf 640 l r < 0 then ("left") else ("right"))),
       some { left_fit := [0, 0, 0], right_fit := [0, 0, 0], left_curverad := 1000,
              right_curverad := 1000, deviation := deviationOf 640 l r }) := by
    unfold processBody
    have hht : (resizeFrame f 640 480).height = 480 := rfl
    have hwt : (resizeFrame f 640 480).width = 640 := rfl
    simp only [hht, hwt]
    simp only [hL, hR]
    rfl
  refine ⟨cvPutText (cvPutText (cvAddWeighted (resizeFrame f 640 480)
      (drawnLayer 640 480 (some l) (some r))) (Annot.curvature 1000))
    (Annot.deviationMsg (deviationOf 640 l r)
      (if deviationOf 640 l r < 0 then ("left") else ("right"))), ?_, ?_, ?_⟩
  · simp [processImage, h, hb]
  · rw [renderedDirection_putText]
    by_cases hd : deviationOf 640 l r < 0
    · rw [if_pos hd]
      constructor
      · intro hcon
        exact absurd (Option.some.inj hcon) (by decide)
      · intro hge
        exact absurd hd (not_lt.mpr hge)
    · rw [if_neg hd]
      exact ⟨fun _ => not_lt.mp hd, fun _ => rfl⟩
  · rw [renderedDirection_putText]
    by_cases hd : deviationOf 640 l r < 0
    · rw [if_pos hd]
      exact ⟨fun _ => hd, fun _ => rfl⟩
    · rw [if_neg hd]
      constructor
      · intro hcon
        exact absurd (Option.some.inj hcon) (by decide)
      · intro hlt
        exact absurd hlt hd

theorem C5_deviation_and_label_witness :
    ∃ res, processImage (some (testFrame 100)) (some [segL, segR2]) = (some res, some
        { left_fit := [0, 0, 0], right_fit := [0, 0, 0], left_curverad := 1000,
          right_curverad := 1000,
          deviation := deviationOf 640 ⟨100, 480, 292, 288⟩ ⟨560, 480, 368, 288⟩ }) ∧
      (renderedDirection res = some ("right") ↔
        0 ≤ deviationOf 640 ⟨100, 480, 292, 288⟩ ⟨560, 480, 368, 288⟩) ∧
      (renderedDirection res = some ("left") ↔
        deviationOf 640 ⟨100, 480, 292, 288⟩ ⟨560, 480, 368, 288⟩ < 0) :=
  C5_deviation_and_label (testFrame 100) (some [segL, segR2])
    ⟨100, 480, 292, 288⟩ ⟨560, 480, 368, 288⟩ rfl
    (by norm_num [sidesOf, classifySegments, classifyStep, segSlope, average_lines,
      xCoordsOf, yCoordsOf, polyfit1, ratSum, ratSumSq, ratSumMul, intTrunc, List.foldl, segL, segR2])
    (by norm_num [sidesOf, classifySegments, classifyStep, segSlope, average_lines,
      xCoordsOf, yCoordsOf, polyfit1, ratSum, ratSumSq, ratSumMul, intTrunc, List.foldl, segL, segR2])


/-! ### Least-squares infrastructure for `polyfit1` -/

/-- The determinant `n·Σx² − (Σx)²` of the degree-1 normal equations. -/
def fitDenom (xs : List ℤ) : ℚ :=
  (xs.length : ℚ) * ratSumSq xs - (ratSum xs) ^ 2

theorem sum_sq_sub (a : ℚ) (t : List ℤ) :
    (t.map (fun z => (a - Int.cast z) ^ 2)).sum =
      (t.length : ℚ) * a ^ 2 - 2 * a * ratSum t + ratSumSq t := by
  induction t with
  | nil => simp [ratSum, ratSumSq]
  | cons z t ih =>
      simp only [List.map_cons, List.sum_cons, List.length_cons, ratSum, ratSumSq] at ih ⊢
      rw [ih]
      push_cast
      ring

theorem fitDenom_cons (z : ℤ) (t : List ℤ) :
    fitDenom (z :: t) = fitDenom t + (t.map (fun w => ((z : ℚ) - Int.cast w) ^ 2)).sum := by
  unfold fitDenom
  rw [sum_sq_sub]
  simp only [ratSum, ratSumSq, List.map_cons, List.sum_cons, List.length_cons]
  push_cast
  ring

theorem fitDenom_nonneg (xs : List ℤ) : 0 ≤ fitDenom xs := by
  induction xs with
  | nil => simp [fitDenom, ratSum, ratSumSq]
  | cons z t ih =>
      rw [fitDenom_cons]
      have hs : 0 ≤ (t.map (fun w => ((z : ℚ) - Int.cast w) ^ 2)).sum := by
        apply List.sum_nonneg
        intro q hq
        obtain ⟨w, -, rfl⟩ := List.mem_map.mp hq
        positivity
      linarith

theorem fitDenom_pos (xs : List ℤ) (u v : ℤ) (hu : u ∈ xs) (hv : v ∈ xs)
    (huv : u ≠ v) : 0 < fitDenom xs := by
  induction xs with
  | nil => cases hu
  | cons z t ih =>
      rw [fitDenom_cons]
      by_cases hall : ∀ w ∈ t, w = z
      · have hu' : u = z := by
          rcases List.mem_cons.mp hu with h | h
          · exact h
          · exact hall u h
        have hv' : v = z := by
          rcases List.mem_cons.mp hv with h | h
          · exact h
          · exact hall v h
        exact absurd (hu'.trans hv'.symm) huv
      · push_neg at hall
        obtain ⟨w, hw, hwz⟩ := hall
        have hne : ((z : ℚ) - Int.cast w) ≠ 0 := by
          rw [sub_ne_zero]
          exact_mod_cast Ne.symm hwz
        have hpos : 0 < ((z : ℚ) - Int.cast w) ^ 2 :=
          lt_of_le_of_ne (sq_nonneg _) (Ne.symm (pow_ne_zero 2 hne))
        have hle : ((z : ℚ) - Int.cast w) ^ 2 ≤ (t.map (fun w => ((z : ℚ) - Int.cast w) ^ 2)).sum := by
          apply List.single_le_sum
          · intro q hq
            obtain ⟨w', -, rfl⟩ := List.mem_map.mp hq
            positivity
          · exact List.mem_map_of_mem _ hw
        have h0 := fitDenom_nonneg t
        linarith

theorem zip_map_fst_sum (xs ys : List ℤ) (h : xs.length = ys.length) :
    ((xs.zip ys).map (fun p => (Int.cast p.1 : ℚ))).sum = ratSum xs := by
  unfold ratSum
  rw [show (fun p : ℤ × ℤ => (Int.cast p.1 : ℚ)) =
      (fun z : ℤ => (Int.cast z : ℚ)) ∘ Prod.fst from rfl]
  rw [← List.map_map, List.map_fst_zip xs ys h.le]

theorem zip_map_snd_sum (xs ys : List ℤ) (h : xs.length = ys.length) :
    ((xs.zip ys).map (fun p => (Int.cast p.2 : ℚ))).sum = ratSum ys := by
  unfold ratSum
  rw [show (fun p : ℤ × ℤ => (Int.cast p.2 : ℚ)) =
      (fun z : ℤ => (Int.cast z : ℚ)) ∘ Prod.snd from rfl]
  rw [← List.map_map, List.map_snd_zip xs ys h.ge]

theorem zip_map_fst_sq_sum (xs ys : List ℤ) (h : xs.length = ys.length) :
    ((xs.zip ys).map (fun p => (Int.cast p.1 : ℚ) ^ 2)).sum = ratSumSq xs := by
  unfold ratSumSq
  rw [show (fun p : ℤ × ℤ => (Int.cast p.1 : ℚ) ^ 2) =
      (fun z : ℤ => (Int.cast z : ℚ) ^ 2) ∘ Prod.fst from rfl]
  rw [← List.map_map, List.map_fst_zip xs ys h.le]

theorem zip_map_snd_sq_sum (xs ys : List ℤ) (h : xs.length = ys.length) :
    ((xs.zip ys).map (fun p => (Int.cast p.2 : ℚ) ^ 2)).sum = ratSumSq ys := by
  unfold ratSumSq
  rw [show (fun p : ℤ × ℤ => (Int.cast p.2 : ℚ) ^ 2) =
      (fun z : ℤ => (Int.cast z : ℚ) ^ 2) ∘ Prod.snd from rfl]
  rw [← List.map_map, List.map_snd_zip xs ys h.ge]

theorem zip_length_eq (xs ys : List ℤ) (h : xs.length = ys.length) :
    (xs.zip ys).length = xs.length := by
  rw [List.length_zip, h, min_self]

/-- The sum of squared vertical residuals of the line `y = m·x + b` over the
fitted points — the quantity `np.polyfit(x, y, 1)` minimises. -/
def lsqErr (xs ys : List ℤ) (m b : ℚ) : ℚ :=
  ((xs.zip ys).map
    (fun p => ((Int.cast p.2 : ℚ) - (m * (Int.cast p.1 : ℚ) + b)) ^ 2)).sum

theorem lsq_expand (P : List (ℤ × ℤ)) (m b : ℚ) :
    (P.map (fun p => ((Int.cast p.2 : ℚ) - (m * (Int.cast p.1 : ℚ) + b)) ^ 2)).sum =
      (P.map (fun p => (Int.cast p.2 : ℚ) ^ 2)).sum
        - 2 * m * (P.map (fun p => (Int.cast p.1 : ℚ) * (Int.cast p.2 : ℚ))).sum
        - 2 * b * (P.map (fun p => (Int.cast p.2 : ℚ))).sum
        + m ^ 2 * (P.map (fun p => (Int.cast p.1 : ℚ) ^ 2)).sum
        + 2 * m * b * (P.map (fun p => (Int.cast p.1 : ℚ))).sum
        + (P.length : ℚ) * b ^ 2 := by
  induction P with
  | nil => simp
  | cons p t ih =>
      simp only [List.map_cons, List.sum_cons, List.length_cons]
      rw [ih]
      push_cast
      ring

theorem lsqErr_eq (xs ys : List ℤ) (h : xs.length = ys.length) (m b : ℚ) :
    lsqErr xs ys m b =
      ratSumSq ys - 2 * m * ratSumMul xs ys - 2 * b * ratSum ys
        + m ^ 2 * ratSumSq xs + 2 * m * b * ratSum xs + (xs.length : ℚ) * b ^ 2 := by
  unfold lsqErr
  rw [lsq_expand, zip_map_snd_sq_sum xs ys h, zip_map_fst_sq_sum xs ys h,
    zip_map_snd_sum xs ys h, zip_map_fst_sum xs ys h, zip_length_eq xs ys h]
  rfl

theorem polyfit1_is_least_squares (xs ys : List ℤ) (hlen : xs.length = ys.length)
    (hD : fitDenom xs ≠ 0) (m' b' : ℚ) :
    lsqErr xs ys (polyfit1 xs ys).1 (polyfit1 xs ys).2 ≤ lsqErr xs ys m' b' := by
  have hDnn := fitDenom_nonneg xs
  unfold fitDenom at hD hDnn
  have hn0 : (xs.length : ℚ) ≠ 0 := by
    intro h0
    apply hD
    have hlen0 : xs.length = 0 := by exact_mod_cast h0
    have hxs : xs = [] := List.length_eq_zero.mp hlen0
    subst hxs
    simp [ratSum, ratSumSq]
  have hnpos : (0 : ℚ) < (xs.length : ℚ) := lt_of_le_of_ne (by positivity) (Ne.symm hn0)
  rw [lsqErr_eq xs ys hlen, lsqErr_eq xs ys hlen]
  set n := (xs.length : ℚ) with hn
  set sx := ratSum xs with hsx
  set sy := ratSum ys with hsy
  set sxx := ratSumSq xs with hsxx
  set syy := ratSumSq ys with hsyy
  set sxy := ratSumMul xs ys with hsxy
  set mh := (n * sxy - sx * sy) / (n * sxx - sx ^ 2) with hmh
  set bh := (sy - mh * sx) / n with hbh
  have hm1 : (polyfit1 xs ys).1 = mh := rfl
  have hb1 : (polyfit1 xs ys).2 = bh := rfl
  rw [hm1, hb1]
  have e1 : sy - mh * sx - n * bh = 0 := by
    rw [hbh]
    field_simp
  have e2 : sxy - mh * sxx - bh * sx = 0 := by
    rw [hbh, hmh]
    field_simp
    ring
  have hdiff : (syy - 2 * m' * sxy - 2 * b' * sy + m' ^ 2 * sxx + 2 * m' * b' * sx
        + n * b' ^ 2)
      - (syy - 2 * mh * sxy - 2 * bh * sy + mh ^ 2 * sxx + 2 * mh * bh * sx
        + n * bh ^ 2)
      = sxx * (m' - mh) ^ 2 + 2 * sx * (m' - mh) * (b' - bh) + n * (b' - bh) ^ 2 := by
    linear_combination (-2 * (m' - mh)) * e2 + (-2 * (b' - bh)) * e1
  have hid : n * (sxx * (m' - mh) ^ 2 + 2 * sx * (m' - mh) * (b' - bh)
        + n * (b' - bh) ^ 2)
      = (n * (b' - bh) + sx * (m' - mh)) ^ 2 + (n * sxx - sx ^ 2) * (m' - mh) ^ 2 := by
    ring
  have hquad : 0 ≤ sxx * (m' - mh) ^ 2 + 2 * sx * (m' - mh) * (b' - bh)
      + n * (b' - bh) ^ 2 := by
    nlinarith [sq_nonneg (n * (b' - bh) + sx * (m' - mh)), sq_nonneg (m' - mh),
      mul_nonneg hDnn (sq_nonneg (m' - mh)), hnpos, hid]
  linarith [hdiff, hquad]

theorem coords_foldl_eq (g h : Segment → ℤ) (ls : List Segment) :
    ∀ acc : List ℤ,
      ls.foldl (fun a s => a ++ [g s, h s]) acc =
        acc ++ ls.flatMap (fun s => [g s, h s]) := by
  induction ls with
  | nil => intro acc; simp
  | cons s t ih =>
      intro acc
      rw [List.foldl_cons, ih]
      simp

theorem xCoordsOf_eq (ls : List Segment) :
    xCoordsOf ls = ls.flatMap (fun s => [s.x1, s.x2]) := by
  unfold xCoordsOf
  rw [coords_foldl_eq (fun s => s.x1) (fun s => s.x2) ls []]
  rfl

theorem yCoordsOf_eq (ls : List Segment) :
    yCoordsOf ls = ls.flatMap (fun s => [s.y1, s.y2]) := by
  unfold yCoordsOf
  rw [coords_foldl_eq (fun s => s.y1) (fun s => s.y2) ls []]
  rfl

theorem xCoordsOf_length (ls : List Segment) :
    (xCoordsOf ls).length = 2 * ls.length := by
  rw [xCoordsOf_eq]
  induction ls with
  | nil => rfl
  | cons s t ih =>
      simp only [List.flatMap_cons, List.length_append, List.length_cons,
        List.length_nil] at ih ⊢
      omega

theorem yCoordsOf_length (ls : List Segment) :
    (yCoordsOf ls).length = 2 * ls.length := by
  rw [yCoordsOf_eq]
  induction ls with
  | nil => rfl
  | cons s t ih =>
      simp only [List.flatMap_cons, List.length_append, List.length_cons,
        List.length_nil] at ih ⊢
      omega

theorem mem_xCoordsOf (ls : List Segment) (s : Segment) (hs : s ∈ ls) :
    s.x1 ∈ xCoordsOf ls ∧ s.x2 ∈ xCoordsOf ls := by
  rw [xCoordsOf_eq]
  constructor
  · exact List.mem_flatMap.mpr ⟨s, hs, by simp⟩
  · exact List.mem_flatMap.mpr ⟨s, hs, by simp⟩

theorem fitDenom_xCoords_pos (ls : List Segment) (hne : ls ≠ [])
    (hnv : ∀ s ∈ ls, s.x2 - s.x1 ≠ 0) : 0 < fitDenom (xCoordsOf ls) := by
  cases ls with
  | nil => exact absurd rfl hne
  | cons s t =>
      have hs : s ∈ s :: t := List.mem_cons_self s t
      have hmem := mem_xCoordsOf (s :: t) s hs
      have hx : s.x1 ≠ s.x2 := by
        intro hcon
        apply hnv s hs
        rw [hcon]
        ring
      exact fitDenom_pos _ s.x1 s.x2 hmem.1 hmem.2 hx

/-- C6: for every non-empty candidate set (whose segments are all
non-vertical, as the classifier guarantees), `average_lines` performs a
degree-1 least-squares fit of y against all endpoint coordinates — the
computed `(slope, intercept)` minimises the summed squared residuals
`lsqErr` over all lines — and returns a lane line whose endpoints lie at
`y = H` (frame bottom) and `y = int(0.6·H)`, with `x` solved as the integer
truncation of `(y − intercept) / slope`, and with `x` substituted by `0`
(not a division error) whenever the fitted slope is `0`; for an empty set
the lane line is absent (`none`), never an error. -/
theorem C6_average_lines_least_squares (H : ℕ) (ls : List Segment)
    (hne : ls ≠ []) (hnv : ∀ s ∈ ls, s.x2 - s.x1 ≠ 0) :
    average_lines H [] = none ∧
    ∃ seg, average_lines H ls = some seg ∧
      seg.y1 = (H : ℤ) ∧
      seg.y2 = 6 * (H : ℤ) / 10 ∧
      ((polyfit1 (xCoordsOf ls) (yCoordsOf ls)).1 = 0 → seg.x1 = 0 ∧ seg.x2 = 0) ∧
      ((polyfit1 (xCoordsOf ls) (yCoordsOf ls)).1 ≠ 0 →
        seg.x1 = intTrunc ((((H : ℤ) : ℚ) - (polyfit1 (xCoordsOf ls) (yCoordsOf ls)).2) /
          (polyfit1 (xCoordsOf ls) (yCoordsOf ls)).1) ∧
        seg.x2 = intTrunc ((((6 * (H : ℤ) / 10 : ℤ) : ℚ) -
            (polyfit1 (xCoordsOf ls) (yCoordsOf ls)).2) /
          (polyfit1 (xCoordsOf ls) (yCoordsOf ls)).1)) ∧
      (∀ m' b', lsqErr (xCoordsOf ls) (yCoordsOf ls)
          (polyfit1 (xCoordsOf ls) (yCoordsOf ls)).1
          (polyfit1 (xCoordsOf ls) (yCoordsOf ls)).2 ≤
        lsqErr (xCoordsOf ls) (yCoordsOf ls) m' b') := by
  have hlen0 : ¬ ls.length = 0 := fun h => hne (List.length_eq_zero.mp h)
  have hpos : 0 < ls.length := Nat.pos_of_ne_zero hlen0
  have hx0 : 0 < (xCoordsOf ls).length := by
    rw [xCoordsOf_length]
    omega
  have hy0 : 0 < (yCoordsOf ls).length := by
    rw [yCoordsOf_length]
    omega
  refine ⟨rfl, ?_⟩
  unfold average_lines
  rw [if_neg hlen0, if_pos ⟨hx0, hy0⟩]
  refine ⟨_, rfl, rfl, rfl, ?_, ?_, ?_⟩
  · intro hm0
    constructor
    · simp [hm0]
    · simp [hm0]
  · intro hm0
    constructor
    · simp [hm0]
    · simp [hm0]
  · intro m' b'
    exact polyfit1_is_least_squares (xCoordsOf ls) (yCoordsOf ls)
      (by rw [xCoordsOf_length, yCoordsOf_length])
      (fitDenom_xCoords_pos ls hne hnv).ne' m' b'

theorem C6_average_lines_least_squares_witness :
    average_lines 480 [] = none ∧
    ∃ seg, average_lines 480 [segL] = some seg ∧
      seg.y1 = ((480 : ℕ) : ℤ) ∧
      seg.y2 = 6 * ((480 : ℕ) : ℤ) / 10 ∧
      ((polyfit1 (xCoordsOf [segL]) (yCoordsOf [segL])).1 = 0 → seg.x1 = 0 ∧ seg.x2 = 0) ∧
      ((polyfit1 (xCoordsOf [segL]) (yCoordsOf [segL])).1 ≠ 0 →
        seg.x1 = intTrunc (((((480 : ℕ) : ℤ) : ℚ) -
            (polyfit1 (xCoordsOf [segL]) (yCoordsOf [segL])).2) /
          (polyfit1 (xCoordsOf [segL]) (yCoordsOf [segL])).1) ∧
        seg.x2 = intTrunc ((((6 * ((480 : ℕ) : ℤ) / 10 : ℤ) : ℚ) -
            (polyfit1 (xCoordsOf [segL]) (yCoordsOf [segL])).2) /
          (polyfit1 (xCoordsOf [segL]) (yCoordsOf [segL])).1)) ∧
      (∀ m' b', lsqErr (xCoordsOf [segL]) (yCoordsOf [segL])
          (polyfit1 (xCoordsOf [segL]) (yCoordsOf [segL])).1
          (polyfit1 (xCoordsOf [segL]) (yCoordsOf [segL])).2 ≤
        lsqErr (xCoordsOf [segL]) (yCoordsOf [segL]) m' b') :=
  C6_average_lines_least_squares 480 [segL] (by simp)
    (by
      intro s hs
      rw [List.mem_singleton] at hs
      subst hs
      decide)
